import Mathlib

/-!
Verification of `mongodb_time_series_manager.py`, a thin client shim over a
MongoDB-style document database.

The shim itself builds documents and query filters and passes them to the
driver; the semantic layer here (path resolution, equality and range
matching, delete-one / delete-many / distinct) models what the external
engine does with exactly the filters this shim builds.

Documents are flat maps from string keys to values; a value is either a
scalar (number, string, boolean, datetime — datetimes modelled as integer
instants) or a one-level sub-document of scalars (the `tags` map, which the
spec describes as an open, flat mapping from tag names to scalar values).
-/

namespace MongoShim

/-- A scalar BSON-style value:
integer, string, boolean, or a datetime instant. -/
inductive Scalar where
  | vint (n : Int)
  | vstr (s : String)
  | vbool (b : Bool)
  | vdt (t : Int)
deriving DecidableEq

/-- A document field value: a scalar, or a one-level sub-document of
scalars (the shape of the `tags` map). -/
inductive Value where
  | scalar (s : Scalar)
  | doc (fields : List (String × Scalar))
deriving DecidableEq

/-- A document: a flat association list from field names to values
(Python dicts have unique keys; lookup takes the first binding). -/
abbrev Document := List (String × Value)

/-- First-match association-list lookup, the model of Python / BSON
dictionary key lookup. -/
def lookupAssoc {α : Type} : List (String × α) → String → Option α
  | [], _ => none
  | (k, v) :: rest, key => if k = key then some v else lookupAssoc rest key

/-- Splits a character list at every `.`, accumulating the current
component in reverse. Models MongoDB splitting a query key on dots. -/
def splitDotsAux : List Char → List Char → List String
  | [], acc => [String.mk acc.reverse]
  | c :: cs, acc =>
    if c = '.' then String.mk acc.reverse :: splitDotsAux cs []
    else splitDotsAux cs (c :: acc)

/-- The dot-separated components of a query key, as MongoDB parses a
dotted field path. -/
def splitDots (s : String) : List String :=
  splitDotsAux s.data []

/-- Rank of a scalar's type in the engine's cross-type sort order;
values of distinct types compare by rank alone. -/
def Scalar.rank : Scalar → Nat
  | .vint _ => 0
  | .vstr _ => 1
  | .vbool _ => 2
  | .vdt _ => 3

/-- Lexicographic order on character lists, the within-type order for
string scalars. -/
def charListLe : List Char → List Char → Bool
  | [], _ => true
  | _ :: _, [] => false
  | a :: as, b :: bs => if a = b then charListLe as bs else decide (a < b)

/-- The engine's total comparison on scalar values: values of the same
type compare within the type, values of distinct types compare by type
rank (so a range whose two bounds share a type only ever matches values
of that same type, MongoDB's type bracketing). -/
def scalarLe : Scalar → Scalar → Bool
  | .vint x, .vint y => decide (x ≤ y)
  | .vstr x, .vstr y => charListLe x.data y.data
  | .vbool x, .vbool y => !x || y
  | .vdt x, .vdt y => decide (x ≤ y)
  | a, b => decide (Scalar.rank a ≤ Scalar.rank b)

/-- Resolution of a (possibly dotted) query key against a document:
a one-component path reads a top-level field; a two-component path reads
one level into a sub-document; deeper paths never resolve, because
sub-documents hold only scalars. -/
def resolvePath (d : Document) (path : String) : Option Value :=
  match splitDots path with
  | [k] => lookupAssoc d k
  | [k1, k2] =>
    match lookupAssoc d k1 with
    | some (Value.doc m) => (lookupAssoc m k2).map Value.scalar
    | _ => none
  | _ => none

/-- One condition of a query filter: an exact-equality value, or an
operator sub-document such as `\x7b$gte: a, $lte: b\x7d`. -/
inductive Cond where
  | eq (v : Value)
  | ops (ops : List (String × Scalar))
deriving DecidableEq

/-- A query filter: an association list from (possibly dotted) keys to
conditions, mirroring the Python query dictionaries the shim builds. -/
abbrev Query := List (String × Cond)

/-- Evaluation of one comparison operator against the resolved scalar;
an operator this shim never builds matches nothing. -/
def evalOp (op : String) (fieldVal : Scalar) (arg : Scalar) : Bool :=
  if op = "$gte" then scalarLe arg fieldVal
  else if op = "$lte" then scalarLe fieldVal arg
  else false

/-- Whether a document satisfies one condition at one query key. -/
def matchesCond (d : Document) (path : String) : Cond → Bool
  | Cond.eq v => resolvePath d path == some v
  | Cond.ops ops =>
    match resolvePath d path with
    | some (Value.scalar s) => ops.all (fun p => evalOp p.1 s p.2)
    | _ => false

/-- Whether a document satisfies every condition of a query filter. -/
def matchesQuery (d : Document) (q : Query) : Bool :=
  q.all (fun p => matchesCond d p.1 p.2)

/-- `collection.find(query)`: the documents satisfying the filter, in
collection order. -/
def find (docs : List Document) (q : Query) : List Document :=
  docs.filter (fun d => matchesQuery d q)

/-- `collection.insert_one(document)`: appends the document. -/
def insert_one (docs : List Document) (d : Document) : List Document :=
  docs ++ [d]

/-- `collection.delete_one(query)`: removes the first matching document
and reports how many (0 or 1) were deleted. -/
def delete_one : List Document → Query → List Document × Nat
  | [], _ => ([], 0)
  | d :: rest, q =>
    if matchesQuery d q then (rest, 1)
    else
      match delete_one rest q with
      | (r, n) => (d :: r, n)

/-- `collection.delete_many(query)`: removes every matching document and
reports how many were deleted. -/
def delete_many (docs : List Document) (q : Query) : List Document × Nat :=
  (docs.filter (fun d => !matchesQuery d q),
   (docs.filter (fun d => matchesQuery d q)).length)

/-- `collection.distinct(field)`: the distinct values of a field across
the collection (documents lacking the field contribute nothing). -/
def distinct (docs : List Document) (field : String) : List Value :=
  (docs.filterMap (fun d => resolvePath d field)).dedup

end MongoShim

namespace MongoDB

open MongoShim

/-- Per-collection configuration recorded by the server at creation:
the designated time field and metadata field. -/
structure CollectionInfo where
  timeField : String
  metaField : String
deriving DecidableEq

/-- The database the shim is bound to: its named collections, plus an
optional server-side fault that makes the next command fail with a
generic (non-`CollectionInvalid`) error — the spec's `ServerRejected`
channel. -/
structure Database where
  collections : List (String × CollectionInfo)
  serverFault : Option String
deriving DecidableEq

/-- A collection handle as pymongo hands it out: the bound collection
name plus whether its codec options decode timestamps time-zone-aware
(pymongo's default is `tz_aware=False`). -/
structure CollectionHandle where
  name : String
  tzAware : Bool
deriving DecidableEq

/-- The driver errors this shim can observe: `CollectionInvalid`
(collection already exists) and everything else. -/
inductive PyError where
  | collectionInvalid (msg : String)
  | other (msg : String)
deriving DecidableEq

/-- `self.db[name]`: subscripting a database yields a handle bound to
that name with default codec options (not tz-aware). -/
def getitem (_db : Database) (name : String) : CollectionHandle :=
  { name := name, tzAware := false }

/-- `self.db.create_collection(name, timeseries=...)`: fails with a
generic error when the server rejects the command, with
`CollectionInvalid` when the name is taken, and otherwise records the
new collection and returns a default-codec handle to it. -/
def create_collection (db : Database) (name : String)
    (time_field meta_field : String) :
    Except PyError (Database × CollectionHandle) :=
  match db.serverFault with
  | some m => Except.error (PyError.other m)
  | none =>
    if (lookupAssoc db.collections name).isSome then
      Except.error (PyError.collectionInvalid (name ++ " already exists"))
    else
      Except.ok
        ({ db with
            collections :=
              (name, { timeField := time_field, metaField := meta_field })
                :: db.collections },
         { name := name, tzAware := false })

/-- `.with_options(codec_options=CodecOptions(tz_aware=True))`: the same
handle with time-zone-aware decoding enabled. -/
def with_options_tz (c : CollectionHandle) : CollectionHandle :=
  { c with tzAware := true }

/-- `MongoDB.create_timeseries_collection`: tries to create the
collection and wrap the handle in tz-aware codec options; on
`CollectionInvalid` it falls back to `self.db['collection_name']` — the
hardcoded string literal of the source, not the requested name — and any
other error propagates. -/
def create_timeseries_collection (db : Database) (collection_name : String)
    (time_field meta_field : String) :
    Except PyError (Database × CollectionHandle) :=
  match create_collection db collection_name time_field meta_field with
  | Except.ok (db2, c) => Except.ok (db2, with_options_tz c)
  | Except.error (PyError.collectionInvalid _) =>
    Except.ok (db, getitem db "collection_name")
  | Except.error e => Except.error e

/-- The document `MongoDB.insert_timeseries_document` builds: the local
`document = \x7b'timestamp': ..., 'value': ..., 'tags': ...\x7d` dict. -/
def tsDocument (timestamp value : Scalar)
    (tags : List (String × Scalar)) : Document :=
  [("timestamp", Value.scalar timestamp),
   ("value", Value.scalar value),
   ("tags", Value.doc tags)]

/-- `MongoDB.insert_timeseries_document`: inserts the built document. -/
def insert_timeseries_document (docs : List Document)
    (timestamp value : Scalar) (tags : List (String × Scalar)) :
    List Document :=
  insert_one docs (tsDocument timestamp value tags)

/-- `MongoDB.print_collection_data`: iterates `collection.find()` (no
filter) printing each document; returns the collection state and the
sequence of documents printed. -/
def print_collection_data (docs : List Document) :
    List Document × List Document :=
  (docs, find docs [])

/-- `MongoDB.delete_document_by_timestamp`: `delete_one` with the filter
`\x7b'timestamp': timestamp\x7d`; returns the new state and the reported
deleted count. -/
def delete_document_by_timestamp (docs : List Document)
    (timestamp : Scalar) : List Document × Nat :=
  delete_one docs [("timestamp", Cond.eq (Value.scalar timestamp))]

/-- `MongoDB.get_documents_by_timestamp`: `find` with the filter
`\x7b'timestamp': \x7b'$gte': start, '$lte': end\x7d\x7d`; returns the
(unchanged) collection state and the cursor's documents. -/
def get_documents_by_timestamp (docs : List Document)
    (start_time end_time : Scalar) : List Document × List Document :=
  (docs,
   find docs
     [("timestamp", Cond.ops [("$gte", start_time), ("$lte", end_time)])])

/-- `MongoDB.get_documents_by_tag`: `find` with the filter
`\x7b'tags.' + tag_name: tag_value\x7d`; returns the (unchanged)
collection state and the cursor's documents. -/
def get_documents_by_tag (docs : List Document) (tag_name : String)
    (tag_value : Scalar) : List Document × List Document :=
  (docs, find docs [("tags." ++ tag_name, Cond.eq (Value.scalar tag_value))])

/-- `MongoDB.remove_duplicates`: lists the distinct values of the field,
then for each value runs `delete_many` with the filter
`\x7bfield_to_check: value\x7d`. -/
def remove_duplicates (docs : List Document) (field_to_check : String) :
    List Document :=
  (distinct docs field_to_check).foldl
    (fun acc value => (delete_many acc [(field_to_check, Cond.eq value)]).1)
    docs

end MongoDB

namespace MongoShim

theorem charListLe_refl (cs : List Char) : charListLe cs cs = true := by
  induction cs with
  | nil => rfl
  | cons c cs ih => simp [charListLe, ih]

theorem charListLe_antisymm (as bs : List Char) (h1 : charListLe as bs = true)
    (h2 : charListLe bs as = true) : as = bs := by
  induction as generalizing bs with
  | nil =>
    cases bs with
    | nil => rfl
    | cons b bs => simp [charListLe] at h2
  | cons a as ih =>
    cases bs with
    | nil => simp [charListLe] at h1
    | cons b bs =>
      by_cases hab : a = b
      · subst hab
        simp [charListLe] at h1 h2
        rw [ih bs h1 h2]
      · have hba : b ≠ a := fun h => hab h.symm
        simp [charListLe, hab, hba] at h1 h2
        exact absurd h1 (lt_asymm h2)

theorem scalarLe_refl (a : Scalar) : scalarLe a a = true := by
  cases a <;> simp [scalarLe, charListLe_refl]

theorem scalarLe_antisymm (a b : Scalar) (h1 : scalarLe a b = true)
    (h2 : scalarLe b a = true) : a = b := by
  cases a <;> cases b
  case vint.vint x y =>
    simp [scalarLe] at h1 h2
    exact congrArg Scalar.vint (le_antisymm h1 h2)
  case vstr.vstr x y =>
    simp [scalarLe] at h1 h2
    have hd := charListLe_antisymm x.data y.data h1 h2
    cases x
    cases y
    simp_all
  case vbool.vbool x y =>
    cases x <;> cases y <;> simp_all [scalarLe]
  case vdt.vdt x y =>
    simp [scalarLe] at h1 h2
    exact congrArg Scalar.vdt (le_antisymm h1 h2)
  all_goals simp [scalarLe, Scalar.rank] at h1 h2

end MongoShim

namespace MongoShim

theorem splitDotsAux_ne_nil (cs acc : List Char) : splitDotsAux cs acc ≠ [] := by
  induction cs generalizing acc with
  | nil => simp [splitDotsAux]
  | cons c cs ih =>
    by_cases h : c = '.' <;> simp [splitDotsAux, h, ih]

theorem splitDotsAux_no_dot (cs : List Char) (acc : List Char)
    (h : '.' ∉ cs) : splitDotsAux cs acc = [String.mk (acc.reverse ++ cs)] := by
  induction cs generalizing acc with
  | nil => simp [splitDotsAux]
  | cons c cs ih =>
    have hc : c ≠ '.' := fun hc => h (hc ▸ List.mem_cons_self c cs)
    have hcs : '.' ∉ cs := fun hm => h (List.mem_cons_of_mem c hm)
    simp [splitDotsAux, hc, ih _ hcs, List.append_assoc]

theorem splitDots_no_dot (s : String) (h : '.' ∉ s.data) :
    splitDots s = [s] := by
  unfold splitDots
  rw [splitDotsAux_no_dot s.data [] h]
  simp

theorem splitDotsAux_dot (cs : List Char) (acc : List Char)
    (h : '.' ∈ cs) : 2 ≤ (splitDotsAux cs acc).length := by
  induction cs generalizing acc with
  | nil => simp at h
  | cons c cs ih =>
    by_cases hc : c = '.'
    · have hne := splitDotsAux_ne_nil cs ([] : List Char)
      simp [splitDotsAux, hc]
      exact List.length_pos.mpr hne
    · have hcs : '.' ∈ cs := by
        cases List.mem_cons.mp h with
        | inl he => exact absurd he.symm hc
        | inr hm => exact hm
      simp only [splitDotsAux, if_neg hc]
      exact ih _ hcs

theorem splitDots_tags_append (tn : String) :
    splitDots ("tags." ++ tn) = "tags" :: splitDots tn := by
  have hd : ("tags." ++ tn).data = 't' :: 'a' :: 'g' :: 's' :: '.' :: tn.data := by
    rw [String.data_append]
    rfl
  unfold splitDots
  rw [hd]
  simp [splitDotsAux]

end MongoShim

namespace MongoShim

/-- Direct characterization of the range filter the shim builds: the
document's `timestamp` field holds a scalar `t` with `s <= t <= e`. -/
def tsInRange (d : Document) (s e : Scalar) : Bool :=
  match resolvePath d "timestamp" with
  | some (Value.scalar t) => scalarLe s t && scalarLe t e
  | _ => false

/-- Direct characterization of the tag filter the shim builds: the
document's `tags` sub-document maps `tag_name` to exactly `tag_value`. -/
def tagMatches (d : Document) (tag_name : String) (tag_value : Scalar) : Bool :=
  match lookupAssoc d "tags" with
  | some (Value.doc m) => lookupAssoc m tag_name == some tag_value
  | _ => false

theorem matchesQuery_range (d : Document) (s e : Scalar) :
    matchesQuery d [("timestamp", Cond.ops [("$gte", s), ("$lte", e)])]
      = tsInRange d s e := by
  unfold matchesQuery matchesCond tsInRange
  cases hr : resolvePath d "timestamp" with
  | none => simp [hr]
  | some v =>
    cases v with
    | scalar t => simp [hr, evalOp]
    | doc m => simp [hr]

theorem matchesQuery_eq_field (d : Document) (k : String) (v : Value) :
    matchesQuery d [(k, Cond.eq v)] = (resolvePath d k == some v) := by
  simp [matchesQuery, matchesCond]

theorem matchesQuery_nil (d : Document) : matchesQuery d [] = true := by
  simp [matchesQuery]

theorem matchesQuery_tag (d : Document) (tn : String) (tv : Scalar)
    (h : '.' ∉ tn.data) :
    matchesQuery d [("tags." ++ tn, Cond.eq (Value.scalar tv))]
      = tagMatches d tn tv := by
  rw [matchesQuery_eq_field]
  have hp : resolvePath d ("tags." ++ tn)
      = (match lookupAssoc d "tags" with
         | some (Value.doc m) => (lookupAssoc m tn).map Value.scalar
         | _ => none) := by
    unfold resolvePath
    rw [splitDots_tags_append, splitDots_no_dot tn h]
  rw [hp]
  unfold tagMatches
  cases lookupAssoc d "tags" with
  | none => simp
  | some v =>
    cases v with
    | scalar s => simp
    | doc m =>
      cases lookupAssoc m tn with
      | none => simp
      | some x => simp

theorem matchesQuery_tag_dotted (d : Document) (tn : String) (tv : Scalar)
    (h : '.' ∈ tn.data) :
    matchesQuery d [("tags." ++ tn, Cond.eq (Value.scalar tv))] = false := by
  rw [matchesQuery_eq_field]
  have h2 : 2 ≤ (splitDots tn).length := splitDotsAux_dot tn.data [] h
  have hp : resolvePath d ("tags." ++ tn) = none := by
    unfold resolvePath
    rw [splitDots_tags_append]
    cases hs : splitDots tn with
    | nil => rw [hs] at h2; simp at h2
    | cons a rest =>
      cases rest with
      | nil => rw [hs] at h2; simp at h2
      | cons b rest2 => rfl
  rw [hp]
  rfl

end MongoShim

namespace MongoShim

theorem delete_one_spec (q : Query) (docs : List Document) :
    (delete_one docs q).2 ≤ 1 ∧
    (((delete_one docs q).2 = 0 ∧ (delete_one docs q).1 = docs ∧
        ∀ d ∈ docs, matchesQuery d q = false) ∨
     ((delete_one docs q).2 = 1 ∧
        ∃ l r d, docs = l ++ d :: r ∧ (delete_one docs q).1 = l ++ r ∧
          matchesQuery d q = true ∧ ∀ d2 ∈ l, matchesQuery d2 q = false)) := by
  induction docs with
  | nil =>
    refine ⟨by simp [delete_one], Or.inl ⟨rfl, rfl, ?_⟩⟩
    intro d hd
    simp at hd
  | cons d rest ih =>
    by_cases hm : matchesQuery d q = true
    · refine ⟨by simp [delete_one, hm], Or.inr ⟨by simp [delete_one, hm], ?_⟩⟩
      refine ⟨[], rest, d, by simp, by simp [delete_one, hm], hm, ?_⟩
      intro d2 hd2
      simp at hd2
    · have hmf : matchesQuery d q = false := Bool.eq_false_iff.mpr hm
      have hstate : (delete_one (d :: rest) q).1 = d :: (delete_one rest q).1 := by
        simp [delete_one, hmf]
      have hcount : (delete_one (d :: rest) q).2 = (delete_one rest q).2 := by
        simp [delete_one, hmf]
      refine ⟨by rw [hcount]; exact ih.1, ?_⟩
      cases ih.2 with
      | inl hz =>
        refine Or.inl ⟨by rw [hcount]; exact hz.1, by rw [hstate, hz.2.1], ?_⟩
        intro d2 hd2
        cases List.mem_cons.mp hd2 with
        | inl he => rw [he]; exact hmf
        | inr hr => exact hz.2.2 d2 hr
      | inr ho =>
        obtain ⟨hc1, l, r, dd, hsplit, hrest, hdd, hl⟩ := ho
        refine Or.inr ⟨by rw [hcount]; exact hc1, d :: l, r, dd, by simp [hsplit], ?_, hdd, ?_⟩
        · rw [hstate, hrest]
          simp
        · intro d2 hd2
          cases List.mem_cons.mp hd2 with
          | inl he => rw [he]; exact hmf
          | inr hr => exact hl d2 hr

theorem foldl_delete_many (field : String) (vs : List Value) :
    ∀ docs : List Document,
      vs.foldl (fun acc v => (delete_many acc [(field, Cond.eq v)]).1) docs
        = docs.filter
            (fun d => vs.all (fun v => !(resolvePath d field == some v))) := by
  induction vs with
  | nil =>
    intro docs
    simp
  | cons v vs ih =>
    intro docs
    rw [List.foldl_cons]
    have hstep : (delete_many docs [(field, Cond.eq v)]).1
        = docs.filter (fun d => !(resolvePath d field == some v)) := by
      unfold delete_many
      simp only [matchesQuery_eq_field]
    rw [hstep, ih, List.filter_filter]
    apply List.filter_congr
    intro d _
    simp [List.all_cons, Bool.and_comm]

theorem remove_duplicates_none_left (docs : List Document) (field : String) :
    MongoDB.remove_duplicates docs field
      = docs.filter (fun d => (resolvePath d field).isNone) := by
  unfold MongoDB.remove_duplicates
  rw [foldl_delete_many]
  apply List.filter_congr
  intro d hd
  cases hr : resolvePath d field with
  | none =>
    simp [List.all_eq_true, hr]
  | some v =>
    have hv : v ∈ distinct docs field := by
      unfold distinct
      rw [List.mem_dedup, List.mem_filterMap]
      exact ⟨d, hd, hr⟩
    simp only [hr, Option.isNone_some]
    rw [List.all_eq_false]
    exact ⟨v, hv, by simp⟩

end MongoShim

namespace MongoShim

theorem resolvePath_tsDocument (ts v : Scalar) (tags : List (String × Scalar)) :
    resolvePath (MongoDB.tsDocument ts v tags) "timestamp"
      = some (Value.scalar ts) := rfl

theorem tsInRange_self (d : Document) (T : Scalar) :
    tsInRange d T T = true ↔ resolvePath d "timestamp" = some (Value.scalar T) := by
  unfold tsInRange
  cases hr : resolvePath d "timestamp" with
  | none => simp [hr]
  | some w =>
    cases w with
    | scalar t =>
      simp [hr]
      constructor
      · intro hb
        exact (scalarLe_antisymm T t hb.1 hb.2).symm
      · intro he
        rw [he]
        simp [scalarLe_refl]
    | doc m => simp [hr]

theorem find_range (docs : List Document) (s e : Scalar) :
    (MongoDB.get_documents_by_timestamp docs s e).2
      = docs.filter (fun d => tsInRange d s e) := by
  unfold MongoDB.get_documents_by_timestamp find
  simp only [matchesQuery_range]

end MongoShim

open MongoShim MongoDB

/-- A database in which collection `myt3` already exists. -/
def dbMyt3 : Database :=
  { collections := [("myt3", { timeField := "timestamp", metaField := "tags" })],
    serverFault := none }

/-- C1: the claim says the already-exists fallback binds the returned handle
to the caller's requested name; the source instead subscripts with the
hardcoded string literal `'collection_name'`. Evaluated at a database where
`myt3` already exists, the call returns a handle bound to the placeholder
name `collection_name`, not to `myt3`. -/
theorem claim_C1_fallback_binds_placeholder :
    create_timeseries_collection dbMyt3 "myt3" "timestamp" "tags"
      = Except.ok (dbMyt3, { name := "collection_name", tzAware := false }) ∧
    ({ name := "collection_name", tzAware := false } : CollectionHandle).name
      ≠ "myt3" :=
  ⟨rfl, by decide⟩

/-- Three documents whose `field` values are 1, 1, 2. -/
def dupFieldDocs : List Document :=
  [[("field", Value.scalar (Scalar.vint 1))],
   [("field", Value.scalar (Scalar.vint 1))],
   [("field", Value.scalar (Scalar.vint 2))]]

/-- C2: `remove_duplicates` takes the distinct values of the field and
deletes every document holding each value, so only documents lacking the
field survive; in particular, on documents with `field` values
`[1, 1, 2]` it leaves zero documents, not one survivor per value. -/
theorem claim_C2_remove_duplicates_deletes_all :
    (∀ (docs : List Document) (field : String),
       remove_duplicates docs field
         = docs.filter (fun d => (resolvePath d field).isNone)) ∧
    remove_duplicates dupFieldDocs "field" = [] :=
  ⟨fun docs field => remove_duplicates_none_left docs field, by decide⟩

/-- C3: when the named collection already exists (and the server raises no
other fault), the underlying create raises `CollectionInvalid`, and
`create_timeseries_collection` catches it and still returns a collection
handle successfully; any other error from the create operation propagates
to the caller unchanged. -/
theorem claim_C3_already_exists_recovered_others_propagate :
    ∀ (db : Database) (n tf mf : String),
      (db.serverFault = none → (lookupAssoc db.collections n).isSome = true →
        (∃ msg, create_collection db n tf mf
            = Except.error (PyError.collectionInvalid msg)) ∧
        create_timeseries_collection db n tf mf
          = Except.ok (db, getitem db "collection_name")) ∧
      (∀ m, db.serverFault = some m →
        create_collection db n tf mf = Except.error (PyError.other m) ∧
        create_timeseries_collection db n tf mf
          = Except.error (PyError.other m)) := by
  intro db n tf mf
  constructor
  · intro hf hex
    constructor
    · exact ⟨n ++ " already exists", by simp [create_collection, hf, hex]⟩
    · simp [create_timeseries_collection, create_collection, hf, hex]
  · intro m hm
    constructor
    · simp [create_collection, hm]
    · simp [create_timeseries_collection, create_collection, hm]

/-- C4: `delete_document_by_timestamp` deletes at most one document — the
first whose `timestamp` field exactly equals the given value — never more
(even when several match exactly), leaves every other document in place,
and reports a deleted count of 0 or 1. -/
theorem claim_C4_delete_by_timestamp_at_most_one :
    ∀ (docs : List Document) (ts : Scalar),
      (delete_document_by_timestamp docs ts).2 ≤ 1 ∧
      (((delete_document_by_timestamp docs ts).2 = 0 ∧
        (delete_document_by_timestamp docs ts).1 = docs ∧
        ∀ d ∈ docs,
          (resolvePath d "timestamp" == some (Value.scalar ts)) = false) ∨
       ((delete_document_by_timestamp docs ts).2 = 1 ∧
        ∃ l r d, docs = l ++ d :: r ∧
          (delete_document_by_timestamp docs ts).1 = l ++ r ∧
          (resolvePath d "timestamp" == some (Value.scalar ts)) = true ∧
          ∀ d2 ∈ l,
            (resolvePath d2 "timestamp" == some (Value.scalar ts)) = false)) := by
  intro docs ts
  have h := delete_one_spec [("timestamp", Cond.eq (Value.scalar ts))] docs
  simp only [matchesQuery_eq_field] at h
  exact h

/-- C4 at a concrete input: two documents share the exact timestamp 5; the
call deletes only the first and reports a count of 1. -/
theorem claim_C4_witness :
    (delete_document_by_timestamp
        [tsDocument (Scalar.vdt 5) (Scalar.vint 1) [],
         tsDocument (Scalar.vdt 5) (Scalar.vint 2) []] (Scalar.vdt 5)).2 ≤ 1 ∧
    (((delete_document_by_timestamp
        [tsDocument (Scalar.vdt 5) (Scalar.vint 1) [],
         tsDocument (Scalar.vdt 5) (Scalar.vint 2) []] (Scalar.vdt 5)).2 = 0 ∧
      (delete_document_by_timestamp
        [tsDocument (Scalar.vdt 5) (Scalar.vint 1) [],
         tsDocument (Scalar.vdt 5) (Scalar.vint 2) []] (Scalar.vdt 5)).1
        = [tsDocument (Scalar.vdt 5) (Scalar.vint 1) [],
           tsDocument (Scalar.vdt 5) (Scalar.vint 2) []] ∧
      ∀ d ∈ [tsDocument (Scalar.vdt 5) (Scalar.vint 1) [],
             tsDocument (Scalar.vdt 5) (Scalar.vint 2) []],
        (resolvePath d "timestamp" == some (Value.scalar (Scalar.vdt 5)))
          = false) ∨
     ((delete_document_by_timestamp
        [tsDocument (Scalar.vdt 5) (Scalar.vint 1) [],
         tsDocument (Scalar.vdt 5) (Scalar.vint 2) []] (Scalar.vdt 5)).2 = 1 ∧
      ∃ l r d,
        [tsDocument (Scalar.vdt 5) (Scalar.vint 1) [],
         tsDocument (Scalar.vdt 5) (Scalar.vint 2) []] = l ++ d :: r ∧
        (delete_document_by_timestamp
          [tsDocument (Scalar.vdt 5) (Scalar.vint 1) [],
           tsDocument (Scalar.vdt 5) (Scalar.vint 2) []] (Scalar.vdt 5)).1
          = l ++ r ∧
        (resolvePath d "timestamp" == some (Value.scalar (Scalar.vdt 5)))
          = true ∧
        ∀ d2 ∈ l,
          (resolvePath d2 "timestamp" == some (Value.scalar (Scalar.vdt 5)))
            = false)) :=
  claim_C4_delete_by_timestamp_at_most_one
    [tsDocument (Scalar.vdt 5) (Scalar.vint 1) [],
     tsDocument (Scalar.vdt 5) (Scalar.vint 2) []] (Scalar.vdt 5)

/-- C5: `get_documents_by_timestamp` returns exactly the documents whose
`timestamp` scalar `t` satisfies `start <= t <= end`, inclusive on both
bounds: a document whose timestamp equals either bound (with
`start <= end`) is among the results. -/
theorem claim_C5_range_query_inclusive :
    ∀ (docs : List Document) (s e : Scalar),
      (get_documents_by_timestamp docs s e).2
        = docs.filter (fun d => tsInRange d s e) ∧
      (∀ d ∈ docs, resolvePath d "timestamp" = some (Value.scalar s) →
        scalarLe s e = true → d ∈ (get_documents_by_timestamp docs s e).2) ∧
      (∀ d ∈ docs, resolvePath d "timestamp" = some (Value.scalar e) →
        scalarLe s e = true → d ∈ (get_documents_by_timestamp docs s e).2) := by
  intro docs s e
  refine ⟨find_range docs s e, ?_, ?_⟩
  · intro d hd hts hse
    rw [find_range, List.mem_filter]
    refine ⟨hd, ?_⟩
    simp [tsInRange, hts, scalarLe_refl, hse]
  · intro d hd hts hse
    rw [find_range, List.mem_filter]
    refine ⟨hd, ?_⟩
    simp [tsInRange, hts, scalarLe_refl, hse]

/-- C10: the two query operations and the print operation are read-only:
the collection state they return is the state they were given (and the
print operation's output is every document, via an unfiltered find). -/
theorem claim_C10_queries_read_only :
    ∀ (docs : List Document) (s e : Scalar) (tn : String) (tv : Scalar),
      (get_documents_by_timestamp docs s e).1 = docs ∧
      (get_documents_by_tag docs tn tv).1 = docs ∧
      (print_collection_data docs).1 = docs ∧
      (print_collection_data docs).2 = docs := by
  intro docs s e tn tv
  refine ⟨rfl, rfl, rfl, ?_⟩
  simp [print_collection_data, find, matchesQuery_nil]

/-- A document whose flat `tags` map literally contains the key `a.b`. -/
def dottedTagDoc : Document :=
  [("tags", Value.doc [("a.b", Scalar.vint 5)])]

/-- C6 counterexample: with tag name `a.b`, the document whose `tags` map
holds exactly that key with value 5 satisfies `tags[tagName] == tagValue`,
yet `get_documents_by_tag` returns nothing — the built query key
`tags.a.b` is parsed as a nested path, so the claim fails as stated for
tag names containing a dot. -/
theorem claim_C6_counterexample :
    tagMatches dottedTagDoc "a.b" (Scalar.vint 5) = true ∧
    (get_documents_by_tag [dottedTagDoc] "a.b" (Scalar.vint 5)).2 = [] := by
  constructor
  · rfl
  · decide

/-- C6 (amended): for every tag name without a dot, `get_documents_by_tag`
returns exactly the documents whose `tags` map binds that name to exactly
the given value (one level, exact match); a tag name containing a dot is
parsed as a deeper path below the flat `tags` map and matches no
document. -/
theorem claim_C6_tag_query_exact :
    ∀ (docs : List Document) (tn : String) (tv : Scalar),
      ('.' ∉ tn.data →
        (get_documents_by_tag docs tn tv).2
          = docs.filter (fun d => tagMatches d tn tv)) ∧
      ('.' ∈ tn.data → (get_documents_by_tag docs tn tv).2 = []) := by
  intro docs tn tv
  constructor
  · intro h
    unfold get_documents_by_tag find
    simp only
    apply List.filter_congr
    intro d _
    exact matchesQuery_tag d tn tv h
  · intro h
    unfold get_documents_by_tag find
    simp only
    rw [List.filter_eq_nil_iff]
    intro d _
    rw [matchesQuery_tag_dotted d tn tv h]
    simp

/-- C7: on a collection with no document whose `timestamp` equals `T`,
inserting a document with timestamp `T` and then querying the range
`[T, T]` returns exactly that one inserted document. -/
theorem claim_C7_insert_then_range_roundtrip :
    ∀ (docs : List Document) (T v : Scalar) (tags : List (String × Scalar)),
      (∀ d ∈ docs, resolvePath d "timestamp" ≠ some (Value.scalar T)) →
      (get_documents_by_timestamp
          (insert_timeseries_document docs T v tags) T T).2
        = [tsDocument T v tags] := by
  intro docs T v tags hno
  rw [find_range]
  unfold insert_timeseries_document insert_one
  rw [List.filter_append]
  have h1 : docs.filter (fun d => tsInRange d T T) = [] := by
    rw [List.filter_eq_nil_iff]
    intro d hd hin
    exact hno d hd ((tsInRange_self d T).mp hin)
  have h2 : tsInRange (tsDocument T v tags) T T = true :=
    (tsInRange_self (tsDocument T v tags) T).mpr (resolvePath_tsDocument T v tags)
  rw [h1]
  simp [List.filter, h2]

/-- C7 at a concrete input: a collection holding one document at
timestamp 3; inserting at timestamp 7 and querying `[7, 7]` returns
exactly the inserted document. -/
theorem claim_C7_witness :
    (get_documents_by_timestamp
        (insert_timeseries_document
          [tsDocument (Scalar.vdt 3) (Scalar.vint 9) []]
          (Scalar.vdt 7) (Scalar.vint 1) [("location", Scalar.vstr "xyz")])
        (Scalar.vdt 7) (Scalar.vdt 7)).2
      = [tsDocument (Scalar.vdt 7) (Scalar.vint 1)
          [("location", Scalar.vstr "xyz")]] :=
  claim_C7_insert_then_range_roundtrip
    [tsDocument (Scalar.vdt 3) (Scalar.vint 9) []]
    (Scalar.vdt 7) (Scalar.vint 1) [("location", Scalar.vstr "xyz")]
    (by decide)

/-- A database in which collection `events` already exists. -/
def dbEvents : Database :=
  { collections := [("events", { timeField := "t", metaField := "m" })],
    serverFault := none }

/-- C8 counterexample: called on a database where `events` already exists,
`create_timeseries_collection` takes the fallback path and returns a
handle whose codec options are the driver default — time-zone-aware
decoding is NOT enabled — so the claim fails on the already-exists
fallback path. -/
theorem claim_C8_counterexample :
    create_timeseries_collection dbEvents "events" "t" "m"
      = Except.ok (dbEvents, { name := "collection_name", tzAware := false }) ∧
    ({ name := "collection_name", tzAware := false } : CollectionHandle).tzAware
      ≠ true :=
  ⟨rfl, by decide⟩

/-- C8 (amended): only the fresh-creation path returns a handle with
time-zone-aware timestamp decoding enabled; the already-exists fallback
path returns a handle with the driver's default (non-tz-aware) codec
options. -/
theorem claim_C8_tz_aware_fresh_path_only :
    ∀ (db : Database) (n tf mf : String),
      db.serverFault = none →
      ((lookupAssoc db.collections n).isSome = false →
        create_timeseries_collection db n tf mf
          = Except.ok
              ({ db with
                  collections :=
                    (n, { timeField := tf, metaField := mf })
                      :: db.collections },
               { name := n, tzAware := true })) ∧
      ((lookupAssoc db.collections n).isSome = true →
        create_timeseries_collection db n tf mf
          = Except.ok (db, { name := "collection_name", tzAware := false })) := by
  intro db n tf mf hf
  constructor
  · intro hnew
    simp [create_timeseries_collection, create_collection, hf, hnew,
      with_options_tz]
  · intro hex
    simp [create_timeseries_collection, create_collection, hf, hex, getitem]

/-- C8 at a concrete input: on the empty database the fresh path yields a
tz-aware handle named `evts`; were `evts` present the fallback would
yield the default-codec placeholder handle. -/
theorem claim_C8_witness :
    ((lookupAssoc (Database.mk [] none).collections "evts").isSome = false →
      create_timeseries_collection (Database.mk [] none) "evts" "tf" "mf"
        = Except.ok
            (Database.mk [("evts", CollectionInfo.mk "tf" "mf")] none,
             CollectionHandle.mk "evts" true)) ∧
    ((lookupAssoc (Database.mk [] none).collections "evts").isSome = true →
      create_timeseries_collection (Database.mk [] none) "evts" "tf" "mf"
        = Except.ok
            (Database.mk [] none, CollectionHandle.mk "collection_name" false)) :=
  claim_C8_tz_aware_fresh_path_only (Database.mk [] none) "evts" "tf" "mf" rfl

/-- C9: whatever time field and meta field names a collection was created
with, the shim's document and query builders use the literal keys
`timestamp`, `value` and `tags`: an inserted document has exactly those
keys, deletion filters on `timestamp`, range queries filter on
`timestamp` and tag queries on `tags.<name>`. -/
theorem claim_C9_fixed_field_names :
    ∀ (db : Database) (n tf mf : String) (db2 : Database)
      (c : CollectionHandle),
      create_timeseries_collection db n tf mf = Except.ok (db2, c) →
      ∀ (docs : List Document) (ts v : Scalar)
        (tags : List (String × Scalar)) (tn : String) (tv : Scalar)
        (s e : Scalar),
        insert_timeseries_document docs ts v tags
          = docs ++ [tsDocument ts v tags] ∧
        (tsDocument ts v tags).map Prod.fst = ["timestamp", "value", "tags"] ∧
        lookupAssoc (tsDocument ts v tags) "timestamp"
          = some (Value.scalar ts) ∧
        lookupAssoc (tsDocument ts v tags) "tags" = some (Value.doc tags) ∧
        delete_document_by_timestamp docs ts
          = delete_one docs [("timestamp", Cond.eq (Value.scalar ts))] ∧
        (get_documents_by_timestamp docs s e).2
          = find docs
              [("timestamp", Cond.ops [("$gte", s), ("$lte", e)])] ∧
        (get_documents_by_tag docs tn tv).2
          = find docs [("tags." ++ tn, Cond.eq (Value.scalar tv))] := by
  intro db n tf mf db2 c _ docs ts v tags tn tv s e
  exact ⟨rfl, rfl, rfl, rfl, rfl, rfl, rfl⟩

/-- C9 at a concrete input: a collection created with time field
`created_at` and meta field `labels` is still written and queried under
the fixed keys. -/
theorem claim_C9_witness :
    insert_timeseries_document [] (Scalar.vdt 2) (Scalar.vint 4)
        [("k", Scalar.vstr "a")]
      = [] ++ [tsDocument (Scalar.vdt 2) (Scalar.vint 4)
          [("k", Scalar.vstr "a")]] ∧
    (tsDocument (Scalar.vdt 2) (Scalar.vint 4)
        [("k", Scalar.vstr "a")]).map Prod.fst
      = ["timestamp", "value", "tags"] ∧
    lookupAssoc (tsDocument (Scalar.vdt 2) (Scalar.vint 4)
        [("k", Scalar.vstr "a")]) "timestamp"
      = some (Value.scalar (Scalar.vdt 2)) ∧
    lookupAssoc (tsDocument (Scalar.vdt 2) (Scalar.vint 4)
        [("k", Scalar.vstr "a")]) "tags"
      = some (Value.doc [("k", Scalar.vstr "a")]) ∧
    delete_document_by_timestamp [] (Scalar.vdt 2)
      = delete_one [] [("timestamp", Cond.eq (Value.scalar (Scalar.vdt 2)))] ∧
    (get_documents_by_timestamp [] (Scalar.vdt 0) (Scalar.vdt 9)).2
      = find []
          [("timestamp",
            Cond.ops [("$gte", Scalar.vdt 0), ("$lte", Scalar.vdt 9)])] ∧
    (get_documents_by_tag [] "k" (Scalar.vstr "a")).2
      = find [] [("tags." ++ "k", Cond.eq (Value.scalar (Scalar.vstr "a")))] :=
  claim_C9_fixed_field_names (Database.mk [] none) "myt3" "created_at" "labels"
    (Database.mk [("myt3", CollectionInfo.mk "created_at" "labels")] none)
    (CollectionHandle.mk "myt3" true) rfl
    [] (Scalar.vdt 2) (Scalar.vint 4) [("k", Scalar.vstr "a")]
    "k" (Scalar.vstr "a") (Scalar.vdt 0) (Scalar.vdt 9)
